import Mathlib

/-!
Verification of the Node Bootstrap & Reachability Subsystem of arken/ait
(src/ipfs/ipfs.go), shallowly embedded in Lean 4.

The embedding covers:
* `checkReachability` (ipfs.go lines 150-173): classification of locally
  observed addresses as private / public;
* `setRelay` (lines 124-146): the on-disk announce-address rewrite;
* `createNode` / `setupNode` / `createRepo` (lines 200-251, 289-319):
  repository open / migrate / create and node construction;
* `connectToPeers` (lines 254-286): bootstrap grouping and dialing;
* `spawnNode` (lines 68-121): the startup flow with the reachability probe
  and the conditional relay reconfiguration, recorded as an event trace.

Addresses, peer identities and keys are modelled as `String`, exactly the
textual forms the Go code compares.  External effects (config-file writes,
node construction, migration, the probe RPC) can fail in the real system;
each such effect takes an explicit success/failure input so that every
error path of the source is represented.
-/

namespace Ait

/-! ### Reachability classification (ipfs.go 150-173) -/

/-- The five reserved textual forms tested by `checkReachability`
(ipfs.go line 151): `ips := []string{"/ip4/10.", "/ip4/192.", "/ip4/127.", "/ip4/172.", "/ip6/"}`. -/
def reservedRanges : List String :=
  ["/ip4/10.", "/ip4/192.", "/ip4/127.", "/ip4/172.", "/ip6/"]

/-- Go's strings.HasPrefix on the underlying character sequences (the five
reserved forms and the multiaddr texts are ASCII, where byte-level and
character-level comparison coincide). -/
def hasPrefixChars : List Char → List Char → Bool
  | _, [] => true
  | [], _ :: _ => false
  | c :: s, d :: p => if c = d then hasPrefixChars s p else false

/-- Whether the textual form `s` begins with the form `p`. -/
def textBeginsWith (s p : String) : Bool :=
  hasPrefixChars s.data p.data

/-- The inner loop of `checkReachability` (lines 159-165): `private` starts
`false` and is set whenever the address's textual form starts with one of the
five reserved forms. -/
def isPrivate (addr : String) : Bool :=
  reservedRanges.foldl (fun acc p => acc || textBeginsWith addr p) false

/-- The outer loop of `checkReachability` (lines 157-172): return `true`
(Reachable) as soon as an observed address is not private; once the loop is
exhausted — in particular when no address was observed — return `false`
(NatBound). -/
def checkReachability : List String → Bool
  | [] => false
  | a :: rest => if isPrivate a then checkReachability rest else true

/-! ### Repository configuration (go-ipfs-config fields used by ipfs.go) -/

/-- The configuration fields of the on-disk repository that ipfs.go reads or
writes: identity keypair, storage backend spec (`badgerSpec`, lines 321-332),
capacity ceiling, re-announcement strategy and interval, routing mode,
announce-address override list, bootstrap peer list, local-file-reference
flag, and the repo format version. -/
structure Config where
  peerID : String
  privKey : String
  datastoreSpec : String
  storageMax : String
  reproviderStrategy : String
  reproviderInterval : String
  routingType : String
  announce : List String
  bootstrap : List String
  filestoreEnabled : Bool
  version : Nat
deriving DecidableEq

/-- The relay peer's identity (ipfs.go lines 61, 109, 113, 131). -/
def relayPeerID : String :=
  "12D3KooWL7hvR7nfQxAWMowgoWXWQwKEkQA8QPZrhKjateRTgcDm"

/-- The fixed head of the circuit-relay announce address built at line 131:
relay peer address, then the circuit segment, up to (excluding) the node's
own identity. -/
def relayCircuitHead : String :=
  "/dns4/relay.arken.io/tcp/4001/p2p/" ++ relayPeerID ++ "/p2p-circuit/p2p/"

/-- The single relay circuit address announced in relay mode (line 131):
the fixed head concatenated with the node's own persisted identity. -/
def relayCircuitOf (pid : String) : String :=
  relayCircuitHead ++ pid

/-- The pure configuration transformation done by `setRelay`
(lines 129-136): in relay mode the announce list becomes the one circuit
address embedding the repo's own peer identity, otherwise it becomes empty;
the routing mode is set to `"dhtserver"`; nothing else is touched. -/
def setRelayConfig (relay : Bool) (cfg : Config) : Config :=
  { cfg with
    announce := if relay then [relayCircuitOf cfg.peerID] else []
    routingType := "dhtserver" }

/-- Errors of the embedded subsystem, one per distinct failure the Go code
distinguishes. -/
inductive Err where
  | notInitialized
  | migrationFailed
  | ioError
  | constructionError
  | probeError
deriving DecidableEq

/-- `setRelay` (lines 124-146) as an on-disk transition: `fsrepo.ConfigAt`
fails with the "ipfs not initialized" error when no repository exists at the
path; otherwise the rewritten config is persisted, which can fail as an I/O
error (`writeOk = false`). -/
def setRelay (relay : Bool) (world : Option Config) (writeOk : Bool) :
    Except Err (Option Config) :=
  match world with
  | none => .error .notInitialized
  | some cfg =>
      if writeOk then .ok (some (setRelayConfig relay cfg)) else .error .ioError

theorem hasPrefixChars_iff : ∀ (p s : List Char), hasPrefixChars s p = true ↔ p <+: s := by
  intro p
  induction p with
  | nil => intro s; simp [hasPrefixChars]
  | cons d ds ih =>
      intro s
      cases s with
      | nil => simp [hasPrefixChars]
      | cons c cs =>
          simp only [hasPrefixChars, List.cons_prefix_cons]
          by_cases h : c = d
          · simp [h, ih, eq_comm]
          · simp only [if_neg h, Bool.false_eq_true, false_iff, not_and]
            intro he
            exact absurd he.symm h

theorem textBeginsWith_iff (s p : String) :
    textBeginsWith s p = true ↔ p.data <+: s.data :=
  hasPrefixChars_iff p.data s.data

/-! ### Claims C1, C7, C8, C9 -/

/-- C1: an address is classified private iff its textual form begins with one
of the five reserved forms; `checkReachability` returns Reachable (`true`)
iff at least one observed address is not private; with zero observed
addresses it returns NatBound (`false`). -/
theorem checkReachability_spec :
    (∀ a : String, isPrivate a = true ↔ ∃ p ∈ reservedRanges, p.data <+: a.data)
    ∧ (∀ l : List String, checkReachability l = true ↔ ∃ a ∈ l, isPrivate a = false)
    ∧ checkReachability [] = false := by
  refine ⟨fun a => ?_, fun l => ?_, rfl⟩
  · simp only [isPrivate, reservedRanges, List.foldl, Bool.false_or, Bool.or_eq_true,
      textBeginsWith_iff, List.mem_cons, List.not_mem_nil, or_false]
    constructor
    · rintro ((((h | h) | h) | h) | h) <;> exact ⟨_, by simp, h⟩
    · rintro ⟨p, hp, hs⟩
      rcases hp with h | h | h | h | h | h <;> simp_all
  · induction l with
    | nil => simp [checkReachability]
    | cons a rest ih =>
        by_cases h : isPrivate a
        · simp [checkReachability, h, ih]
        · simp only [Bool.not_eq_true] at h
          simp [checkReachability, h]

/-- C7: every call to the announce-address rewrite leaves the announce list
in exactly one of two shapes — empty (direct mode) or a single-element list
holding the one relay circuit address that embeds the repository's own peer
identity — and never more than one entry. -/
theorem setRelay_announce_shape :
    ∀ (relay : Bool) (cfg : Config),
      ((setRelayConfig relay cfg).announce = [] ∧ relay = false
        ∨ (setRelayConfig relay cfg).announce = [relayCircuitHead ++ cfg.peerID]
            ∧ relay = true)
      ∧ (setRelayConfig relay cfg).announce.length ≤ 1 := by
  intro relay cfg
  cases relay <;> simp [setRelayConfig, relayCircuitOf]

/-- C8: the relay-mode rewrite is idempotent at the configuration layer —
applying it twice yields the same configuration as applying it once, and the
announce list still holds exactly the one relay entry. -/
theorem setRelay_idempotent :
    ∀ cfg : Config,
      setRelayConfig true (setRelayConfig true cfg) = setRelayConfig true cfg
      ∧ (setRelayConfig true (setRelayConfig true cfg)).announce
          = [relayCircuitOf cfg.peerID] := by
  intro cfg
  exact ⟨rfl, rfl⟩

/-- C9: a successful announce-address rewrite changes only the announce list
and the routing mode; the identity keypair, storage backend spec,
re-announcement strategy and interval, bootstrap peer list,
local-file-reference flag and format version are all unchanged. -/
theorem setRelay_frame (relay : Bool) (cfg : Config) (writeOk : Bool)
    (world : Option Config)
    (h : setRelay relay (some cfg) writeOk = .ok world) :
    world = some (setRelayConfig relay cfg)
    ∧ (setRelayConfig relay cfg).peerID = cfg.peerID
    ∧ (setRelayConfig relay cfg).privKey = cfg.privKey
    ∧ (setRelayConfig relay cfg).datastoreSpec = cfg.datastoreSpec
    ∧ (setRelayConfig relay cfg).storageMax = cfg.storageMax
    ∧ (setRelayConfig relay cfg).reproviderStrategy = cfg.reproviderStrategy
    ∧ (setRelayConfig relay cfg).reproviderInterval = cfg.reproviderInterval
    ∧ (setRelayConfig relay cfg).bootstrap = cfg.bootstrap
    ∧ (setRelayConfig relay cfg).filestoreEnabled = cfg.filestoreEnabled
    ∧ (setRelayConfig relay cfg).version = cfg.version := by
  refine ⟨?_, rfl, rfl, rfl, rfl, rfl, rfl, rfl, rfl, rfl⟩
  by_cases hw : writeOk = true
  · simpa [setRelay, hw, eq_comm] using h
  · simp only [Bool.not_eq_true] at hw
    simp [setRelay, hw] at h

/-- A sample repository configuration, used to instantiate proved theorems
at concrete inputs. -/
def sampleCfg : Config :=
  { peerID := "12D3KooWSampleSelfIdentity"
    privKey := "sample-key"
    datastoreSpec := "badgerds"
    storageMax := "100TB"
    reproviderStrategy := "roots"
    reproviderInterval := "1h"
    routingType := "dhtserver"
    announce := []
    bootstrap := ["/dns4/link.arken.io/tcp/4001/ipfs/12D3KooWSmosHZtDBbepxWwVgo8HyXSgNCUgs2GGD2qnQPbA3KhD"]
    filestoreEnabled := true
    version := 11 }

/-- Witness for C9: the frame condition, discharged at a concrete
configuration and a successful write. -/
theorem setRelay_frame_witness :
    some (setRelayConfig true sampleCfg) = some (setRelayConfig true sampleCfg)
    ∧ (setRelayConfig true sampleCfg).peerID = sampleCfg.peerID
    ∧ (setRelayConfig true sampleCfg).privKey = sampleCfg.privKey
    ∧ (setRelayConfig true sampleCfg).datastoreSpec = sampleCfg.datastoreSpec
    ∧ (setRelayConfig true sampleCfg).storageMax = sampleCfg.storageMax
    ∧ (setRelayConfig true sampleCfg).reproviderStrategy = sampleCfg.reproviderStrategy
    ∧ (setRelayConfig true sampleCfg).reproviderInterval = sampleCfg.reproviderInterval
    ∧ (setRelayConfig true sampleCfg).bootstrap = sampleCfg.bootstrap
    ∧ (setRelayConfig true sampleCfg).filestoreEnabled = sampleCfg.filestoreEnabled
    ∧ (setRelayConfig true sampleCfg).version = sampleCfg.version :=
  setRelay_frame true sampleCfg true (some (setRelayConfig true sampleCfg)) rfl

/-! ### Peer bootstrap (ipfs.go 254-286) -/

/-- One parsed bootstrap peer: its identity and the addresses carried for it
(`peerstore.PeerInfo` as used at lines 256-271). -/
structure PeerInfo where
  id : String
  addrs : List String
deriving DecidableEq

/-- The body of the grouping loop (lines 266-271): look the identity up in
the map; when absent, add a fresh entry for it; then append the newly parsed
addresses to the entry's address list.  The map is modelled as an
association list in insertion order. -/
def insertPeer (m : List PeerInfo) (pid : String) (newAddrs : List String) :
    List PeerInfo :=
  if ∃ q ∈ m, q.id = pid then
    m.map (fun q => if q.id = pid then ⟨q.id, q.addrs ++ newAddrs⟩ else q)
  else
    m ++ [⟨pid, newAddrs⟩]

/-- The grouping loop of `connectToPeers` (lines 257-272): parse each address
string — returning the parse error at the first malformed one — and fold the
parsed entries into the identity-keyed map.  Parsing
(`ma.NewMultiaddr` followed by `peerstore.InfoFromP2pAddr`, both external
library calls) is a parameter. -/
def groupPeersFrom (parse : String → Option PeerInfo) (acc : List PeerInfo) :
    List String → Option (List PeerInfo)
  | [] => some acc
  | s :: rest =>
    match parse s with
    | none => none
    | some q => groupPeersFrom parse (insertPeer acc q.id q.addrs) rest

/-- `groupPeers` starts the grouping loop from the empty map (line 256). -/
def groupPeers (parse : String → Option PeerInfo) (peers : List String) :
    Option (List PeerInfo) :=
  groupPeersFrom parse [] peers

/-- What a failed dial leaves behind: the log line of line 280, carrying the
peer identity and the underlying cause. -/
inductive DialLog where
  | failure (id cause : String)
deriving DecidableEq

/-- The dial fan-out (lines 274-284): every grouped peer is dialed; a failed
dial only produces a log entry with the peer's identity and the cause.  The
outcome of each dial (`ipfs.Swarm().Connect`) is a parameter: `none` for
success, `some cause` for failure. -/
def dialAll (dial : PeerInfo → Option String) (m : List PeerInfo) :
    List DialLog :=
  m.filterMap (fun q => (dial q).map (fun c => DialLog.failure q.id c))

/-- `connectToPeers` (lines 254-286): group the peer addresses by identity,
failing on the first malformed address, then dial every grouped peer and
return the failure log together with the list of dial attempts. -/
def connectToPeers (parse : String → Option PeerInfo)
    (dial : PeerInfo → Option String) (peers : List String) :
    Option (List DialLog × List PeerInfo) :=
  (groupPeers parse peers).map (fun m => (dialAll dial m, m))

/-- The invariant of the grouping loop: the map holds each parsed identity
exactly once, and each entry's address list is the concatenation, in input
order, of all addresses parsed for that identity. -/
def Grouped (parsed m : List PeerInfo) : Prop :=
  (m.map PeerInfo.id).Nodup
  ∧ (∀ pid, pid ∈ m.map PeerInfo.id ↔ pid ∈ parsed.map PeerInfo.id)
  ∧ ∀ q ∈ m,
      q.addrs
        = ((parsed.filter (fun r => decide (r.id = q.id))).map PeerInfo.addrs).flatten

theorem grouped_insert (parsed m : List PeerInfo) (pid : String)
    (newAddrs : List String) (h : Grouped parsed m) :
    Grouped (parsed ++ [⟨pid, newAddrs⟩]) (insertPeer m pid newAddrs) := by
  obtain ⟨hnd, hmem, haddr⟩ := h
  by_cases hc : ∃ q ∈ m, q.id = pid
  · have hids : (insertPeer m pid newAddrs).map PeerInfo.id = m.map PeerInfo.id := by
      simp only [insertPeer, if_pos hc, List.map_map]
      refine List.map_congr_left ?_
      intro q _
      by_cases hq : q.id = pid <;> simp [hq]
    have hpid : pid ∈ m.map PeerInfo.id := by
      obtain ⟨q, hqm, hq⟩ := hc
      exact hq ▸ List.mem_map_of_mem PeerInfo.id hqm
    refine ⟨hids ▸ hnd, ?_, ?_⟩
    · intro x
      rw [hids]
      simp only [List.map_append, List.mem_append, List.map_cons, List.map_nil,
        List.mem_singleton]
      constructor
      · intro hx
        exact Or.inl ((hmem x).mp hx)
      · rintro (hx | rfl)
        · exact (hmem x).mpr hx
        · exact hpid
    · intro q' hq'
      simp only [insertPeer, if_pos hc, List.mem_map] at hq'
      obtain ⟨q, hqm, rfl⟩ := hq'
      by_cases hq : q.id = pid
      · simp only [if_pos hq]
        rw [List.filter_append]
        have : List.filter (fun r => decide (r.id = q.id)) [(⟨pid, newAddrs⟩ : PeerInfo)]
            = [⟨pid, newAddrs⟩] := by
          simp [hq]
        simp only [hq, this]
        rw [List.map_append, List.flatten_append]
        have := haddr q hqm
        rw [hq] at this
        simp [this, hq]
      · simp only [if_neg hq]
        rw [List.filter_append]
        have : List.filter (fun r => decide (r.id = q.id)) [(⟨pid, newAddrs⟩ : PeerInfo)]
            = [] := by
          simp
          intro he
          exact hq he.symm
        rw [this, List.append_nil]
        exact haddr q hqm
  · have hpid : pid ∉ m.map PeerInfo.id := by
      intro hx
      obtain ⟨q, hqm, hq⟩ := List.mem_map.mp hx
      exact hc ⟨q, hqm, hq⟩
    have hidsplit : (insertPeer m pid newAddrs).map PeerInfo.id
        = m.map PeerInfo.id ++ [pid] := by
      simp [insertPeer, if_neg hc]
    refine ⟨?_, ?_, ?_⟩
    · rw [hidsplit]
      refine List.Nodup.append hnd (List.nodup_singleton pid) ?_
      intro x hx hx'
      rw [List.mem_singleton] at hx'
      exact hpid (hx' ▸ hx)
    · intro x
      rw [hidsplit]
      simp only [List.map_append, List.mem_append, List.map_cons, List.map_nil,
        List.mem_singleton]
      constructor
      · rintro (hx | rfl)
        · exact Or.inl ((hmem x).mp hx)
        · exact Or.inr rfl
      · rintro (hx | rfl)
        · exact Or.inl ((hmem x).mpr hx)
        · exact Or.inr rfl
    · intro q' hq'
      simp only [insertPeer, if_neg hc, List.mem_append, List.mem_singleton] at hq'
      rcases hq' with hq' | rfl
      · have hq'id : q'.id ≠ pid := by
          intro he
          exact hpid (he ▸ List.mem_map_of_mem PeerInfo.id hq')
        rw [List.filter_append]
        have : List.filter (fun r => decide (r.id = q'.id)) [(⟨pid, newAddrs⟩ : PeerInfo)]
            = [] := by
          simp
          intro he
          exact hq'id he.symm
        rw [this, List.append_nil]
        exact haddr q' hq'
      · have hfilter : parsed.filter (fun r => decide (r.id = pid)) = [] := by
          rw [List.filter_eq_nil_iff]
          intro r hr
          simp only [decide_eq_true_eq]
          intro he
          exact hpid ((hmem pid).mpr (he ▸ List.mem_map_of_mem PeerInfo.id hr))
        rw [List.filter_append]
        simp [hfilter]

theorem groupPeersFrom_grouped :
    ∀ (peers : List String) (parse : String → Option PeerInfo)
      (acc m parsed : List PeerInfo),
      Grouped parsed acc → groupPeersFrom parse acc peers = some m →
      Grouped (parsed ++ peers.filterMap parse) m := by
  intro peers
  induction peers with
  | nil =>
      intro parse acc m parsed hg hrun
      simp only [groupPeersFrom, Option.some.injEq] at hrun
      simpa [← hrun] using hg
  | cons s rest ih =>
      intro parse acc m parsed hg hrun
      simp only [groupPeersFrom] at hrun
      cases hps : parse s with
      | none => rw [hps] at hrun; exact absurd hrun (by simp)
      | some q =>
          rw [hps] at hrun
          have hstep := grouped_insert parsed acc q.id q.addrs hg
          have hq : (⟨q.id, q.addrs⟩ : PeerInfo) = q := rfl
          rw [hq] at hstep
          have := ih parse (insertPeer acc q.id q.addrs) m (parsed ++ [q]) hstep hrun
          simpa [hps, List.filterMap_cons, List.append_assoc] using this

theorem groupPeersFrom_none :
    ∀ (peers : List String) (parse : String → Option PeerInfo)
      (acc : List PeerInfo),
      (groupPeersFrom parse acc peers = none ↔ ∃ s ∈ peers, parse s = none) := by
  intro peers
  induction peers with
  | nil => intro parse acc; simp [groupPeersFrom]
  | cons s rest ih =>
      intro parse acc
      simp only [groupPeersFrom]
      cases hps : parse s with
      | none => simp [hps]
      | some q => simp [hps, ih]

/-- C2: with every bootstrap address well-formed, the bootstrapper makes
exactly one dial attempt per distinct peer identity — the attempted
identities are duplicate-free and are exactly the parsed ones — and the
address list passed to each attempt is the concatenation of all addresses
supplied for that identity across the input. -/
theorem connectToPeers_dedup (parse : String → Option PeerInfo)
    (dial : PeerInfo → Option String) (peers : List String)
    (logs : List DialLog) (attempts : List PeerInfo)
    (h : connectToPeers parse dial peers = some (logs, attempts)) :
    (attempts.map PeerInfo.id).Nodup
    ∧ (∀ pid, pid ∈ attempts.map PeerInfo.id
        ↔ pid ∈ (peers.filterMap parse).map PeerInfo.id)
    ∧ ∀ q ∈ attempts,
        q.addrs
          = (((peers.filterMap parse).filter
                (fun r => decide (r.id = q.id))).map PeerInfo.addrs).flatten := by
  have hgroup : groupPeers parse peers = some attempts := by
    unfold connectToPeers at h
    cases hg : groupPeers parse peers with
    | none => rw [hg] at h; exact absurd h (by simp)
    | some m =>
        rw [hg] at h
        simp only [Option.map_some', Option.some.injEq, Prod.mk.injEq] at h
        rw [h.2]
    -- `hg` rewrites the goal's left side to `some m`; the pair equality
    -- identifies `m` with `attempts`.
  have := groupPeersFrom_grouped peers parse [] attempts []
    ⟨List.nodup_nil, by simp, by simp⟩ hgroup
  simpa [Grouped] using this

/-- Sample parse outcomes for the bootstrap claims: three well-formed
addresses, two of which carry the same identity with different transports. -/
def demoParse : String → Option PeerInfo := fun s =>
  if s = "p1" then some ⟨"A", ["a1"]⟩
  else if s = "p2" then some ⟨"B", ["b1"]⟩
  else if s = "p3" then some ⟨"A", ["a2"]⟩
  else none

/-- Sample dial outcomes: the dial to peer B fails, the one to peer A
succeeds. -/
def demoDial : PeerInfo → Option String := fun q =>
  if q.id = "B" then some ("connection refused") else none

/-- Witness for C2: the deduplication property at a concrete input where the
identity A appears twice with different addresses. -/
theorem connectToPeers_dedup_witness :
    (([⟨"A", ["a1", "a2"]⟩, ⟨"B", ["b1"]⟩] : List PeerInfo).map PeerInfo.id).Nodup
    ∧ (∀ pid, pid ∈ ([⟨"A", ["a1", "a2"]⟩, ⟨"B", ["b1"]⟩] : List PeerInfo).map PeerInfo.id
        ↔ pid ∈ ((["p1", "p2", "p3"].filterMap demoParse).map PeerInfo.id))
    ∧ ∀ q ∈ ([⟨"A", ["a1", "a2"]⟩, ⟨"B", ["b1"]⟩] : List PeerInfo),
        q.addrs
          = (((["p1", "p2", "p3"].filterMap demoParse).filter
                (fun r => decide (r.id = q.id))).map PeerInfo.addrs).flatten :=
  connectToPeers_dedup demoParse demoDial ["p1", "p2", "p3"]
    [DialLog.failure ("B") ("connection refused")]
    [⟨"A", ["a1", "a2"]⟩, ⟨"B", ["b1"]⟩] (by decide)

/-- C6: the bootstrap connect fails exactly when some input address is
malformed; on well-formed input it succeeds no matter how the individual
dials turn out, the set of dial attempts does not depend on dial outcomes,
and each failed dial is reported — and only reported — as a log entry
carrying that peer's identity and the cause. -/
theorem connectToPeers_error_handling (parse : String → Option PeerInfo)
    (dial dial2 : PeerInfo → Option String) (peers : List String) :
    (connectToPeers parse dial peers = none ↔ ∃ s ∈ peers, parse s = none)
    ∧ (connectToPeers parse dial peers).map Prod.snd
        = (connectToPeers parse dial2 peers).map Prod.snd
    ∧ ∀ logs attempts, connectToPeers parse dial peers = some (logs, attempts) →
        (∀ q ∈ attempts, ∀ cause, dial q = some cause →
          DialLog.failure q.id cause ∈ logs)
        ∧ ∀ e ∈ logs, ∃ q ∈ attempts, ∃ cause,
            dial q = some cause ∧ e = DialLog.failure q.id cause := by
  refine ⟨?_, ?_, ?_⟩
  · unfold connectToPeers groupPeers
    rw [← groupPeersFrom_none peers parse []]
    cases groupPeersFrom parse [] peers <;> simp
  · unfold connectToPeers
    cases groupPeers parse peers <;> simp
  · intro logs attempts h
    have hlogs : logs = dialAll dial attempts := by
      unfold connectToPeers at h
      cases hg : groupPeers parse peers with
      | none => rw [hg] at h; exact absurd h (by simp)
      | some m =>
          rw [hg] at h
          simp only [Option.map_some', Option.some.injEq, Prod.mk.injEq] at h
          rw [← h.1, h.2]
    subst hlogs
    constructor
    · intro q hq cause hcause
      unfold dialAll
      rw [List.mem_filterMap]
      exact ⟨q, hq, by rw [hcause]; rfl⟩
    · intro e he
      unfold dialAll at he
      rw [List.mem_filterMap] at he
      obtain ⟨q, hq, hfe⟩ := he
      cases hd : dial q with
      | none => rw [hd] at hfe; exact absurd hfe (by simp)
      | some cause =>
          rw [hd] at hfe
          simp only [Option.map_some', Option.some.injEq] at hfe
          exact ⟨q, hq, cause, hd, hfe.symm⟩

/-! ### Repository open / create / migrate (ipfs.go 200-251, 289-319) -/

/-- The repository format version the pinned node implementation expects
(`fsrepo.RepoVersion`); its concrete value is immaterial, only whether the
on-disk version matches it. -/
def repoVersion : Nat := 11

/-- The initial configuration written by `createRepo` (lines 294-310): a
fresh identity keypair, the badger storage backend with a 100TB ceiling,
roots-only reproviding every hour, dhtserver routing, the filestore flag,
and the fixed seed bootstrap list.  The announce list of a fresh
configuration is empty. -/
def freshConfig (pid pk : String) : Config :=
  { peerID := pid
    privKey := pk
    datastoreSpec := "badgerds"
    storageMax := "100TB"
    reproviderStrategy := "roots"
    reproviderInterval := "1h"
    routingType := "dhtserver"
    announce := []
    bootstrap := ["/dns4/link.arken.io/tcp/4001/ipfs/12D3KooWSmosHZtDBbepxWwVgo8HyXSgNCUgs2GGD2qnQPbA3KhD"]
    filestoreEnabled := true
    version := repoVersion }

/-- `createNode` (lines 219-251): open the repository — failing with the
NotInitialized error when none exists at the path — run the one-time format
migration when the on-disk version does not match the supported one, then
construct the node.  Migration (`migrate.RunMigration`, line 225) and node
construction (`core.NewNode`, line 242) are external effects whose success
is a parameter.  On success the configuration the node is bound to and the
resulting on-disk state are returned. -/
def createNode (migrateOk buildOk : Bool) (world : Option Config) :
    Except Err (Config × Option Config) :=
  match world with
  | none => .error .notInitialized
  | some cfg =>
      if cfg.version = repoVersion then
        if buildOk then .ok (cfg, some cfg) else .error .constructionError
      else if migrateOk then
        (if buildOk then
          .ok ({ cfg with version := repoVersion },
            some { cfg with version := repoVersion })
        else .error .constructionError)
      else .error .migrationFailed

/-- Modelled from the spec: the repository create step of `createRepo`
(line 313, `fsrepo.Init`, library code outside this repository).  It writes
the freshly initialized configuration only where no repository exists; at a
path that already holds a repository the existing repository is left
untouched — initialization never overwrites it.  The fresh identity keypair
generated by `config.Init` (line 295) is a parameter. -/
def createRepo (pid pk : String) (world : Option Config) : Option Config :=
  match world with
  | some cfg => some cfg
  | none => some (freshConfig pid pk)

/-- `setupNode` (lines 201-216): try to construct the node; when that fails,
run the explicit create step and try once more. -/
def setupNode (migrateOk buildOk retryBuildOk : Bool) (pid pk : String)
    (world : Option Config) : Except Err (Config × Option Config) :=
  match createNode migrateOk buildOk world with
  | .ok r => .ok r
  | .error _ => createNode migrateOk retryBuildOk (createRepo pid pk world)

/-! ### The startup flow `spawnNode` (ipfs.go 68-121) -/

/-- The observable steps of the startup flow, in the order the source
performs them; the node-building steps carry the configuration the node is
built from. -/
inductive Event where
  | rewriteDirect
  | buildNodeA (cfg : Config)
  | graceWait
  | probe (addrs : List String)
  | cancelCtx
  | rewriteRelay
  | settleWait
  | rebuildNode (cfg : Config)
  | peeringRegister
  | peeringStart
deriving DecidableEq

/-- Recognizes the relay rewrite step in a trace. -/
def Event.isRewriteRelay : Event → Bool
  | .rewriteRelay => true
  | _ => false

/-- The failure/observation inputs of one startup run: whether each config
write, build, migration and the probe RPC succeeds, the addresses the probe
observes, and the identity a fresh repository would be created with. -/
structure SpawnEnv where
  writeDirect : Bool
  writeRelay : Bool
  migrateOk : Bool
  buildOk : Bool
  retryBuildOk : Bool
  rebuildOk : Bool
  probeOk : Bool
  addrs : List String
  newPeerID : String
  newPrivKey : String

/-- What a startup run leaves behind: the on-disk state, the ordered event
trace, the configuration of the current node handle (none when startup
failed), whether a peering relationship was registered and started, and the
returned outcome. -/
structure SpawnResult where
  world : Option Config
  trace : List Event
  nodeCfg : Option Config
  peering : Bool
  outcome : Except Err Unit

/-- The on-disk state after the relay rewrite of line 95: the error returned
by `setRelay(true, path)` is discarded by the source, so when the rewrite
fails the previous on-disk configuration simply stays. -/
def relayWorld (env : SpawnEnv) (world : Option Config) : Option Config :=
  match setRelay true world env.writeRelay with
  | .ok w => w
  | .error _ => world

/-- The NatBound branch of `spawnNode` (lines 90-115): cancel the current
lifetime context, rewrite the announce configuration to the relay circuit —
continuing even when that rewrite failed, see `relayWorld` — wait the settle
period, recreate the node, then register and start the peering relationship
to the relay peer. -/
def relayBranch (env : SpawnEnv) (world : Option Config) (t : List Event) :
    SpawnResult :=
  match createNode env.migrateOk env.rebuildOk (relayWorld env world) with
  | .error e =>
      { world := relayWorld env world
        trace := t ++ [.cancelCtx, .rewriteRelay, .settleWait]
        nodeCfg := none
        peering := false
        outcome := .error e }
  | .ok (cfgB, world2) =>
      { world := world2
        trace := t ++ [.cancelCtx, .rewriteRelay, .settleWait,
          .rebuildNode cfgB, .peeringRegister, .peeringStart]
        nodeCfg := some cfgB
        peering := true
        outcome := .ok () }

/-- The startup flow after the initial direct rewrite (lines 76-120): build
node A via `setupNode`; in online mode wait the grace period, probe the
node's local addresses, and on a NatBound classification enter the relay
branch. -/
def spawnAfterDirect (online : Bool) (env : SpawnEnv) (world : Option Config)
    (t : List Event) : SpawnResult :=
  match setupNode env.migrateOk env.buildOk env.retryBuildOk
      env.newPeerID env.newPrivKey world with
  | .error e =>
      { world := world, trace := t, nodeCfg := none, peering := false,
        outcome := .error e }
  | .ok (cfgA, world1) =>
      if online then
        if env.probeOk then
          if checkReachability env.addrs then
            { world := world1
              trace := t ++ [.buildNodeA cfgA, .graceWait, .probe env.addrs]
              nodeCfg := some cfgA
              peering := false
              outcome := .ok () }
          else
            relayBranch env world1
              (t ++ [.buildNodeA cfgA, .graceWait, .probe env.addrs])
        else
          { world := world1
            trace := t ++ [.buildNodeA cfgA, .graceWait, .probe env.addrs]
            nodeCfg := some cfgA
            peering := false
            outcome := .error .probeError }
      else
        { world := world1
          trace := t ++ [.buildNodeA cfgA]
          nodeCfg := some cfgA
          peering := false
          outcome := .ok () }

/-- `spawnNode` (lines 68-121): rewrite the repository to direct mode before
anything else, tolerating exactly the "ipfs not initialized" failure
(lines 72-75); then build and, online, probe the node. -/
def spawnNode (online : Bool) (env : SpawnEnv) (world0 : Option Config) :
    SpawnResult :=
  match setRelay false world0 env.writeDirect with
  | .error e =>
      if e = .notInitialized then
        spawnAfterDirect online env world0 [.rewriteDirect]
      else
        { world := world0, trace := [.rewriteDirect], nodeCfg := none,
          peering := false, outcome := .error e }
  | .ok world1 => spawnAfterDirect online env world1 [.rewriteDirect]

/-! ### Claim C4 -/

theorem setupNode_ok (migrateOk buildOk retryBuildOk : Bool) (pid pk : String) :
    ∀ (world : Option Config) (c : Config) (w : Option Config),
      setupNode migrateOk buildOk retryBuildOk pid pk world = .ok (c, w) →
      w = some c
      ∧ c.version = repoVersion
      ∧ ((world = none ∧ c = freshConfig pid pk)
          ∨ ∃ cfg0, world = some cfg0
              ∧ (c = cfg0 ∨ c = { cfg0 with version := repoVersion })) := by
  intro world c w h
  cases world with
  | none =>
      cases hr : retryBuildOk <;>
        simp [setupNode, createNode, createRepo, hr, freshConfig] at h
      exact ⟨by rw [← h.1, h.2], by rw [← h.1], Or.inl ⟨rfl, h.1.symm⟩⟩
  | some cfg0 =>
      by_cases hv : cfg0.version = repoVersion
      · cases hb : buildOk
        · cases hr : retryBuildOk <;>
            simp [setupNode, createNode, createRepo, hb, hr, hv] at h
          exact ⟨by rw [← h.1, h.2], by rw [← h.1, hv],
            Or.inr ⟨cfg0, rfl, Or.inl h.1.symm⟩⟩
        · simp [setupNode, createNode, createRepo, hb, hv] at h
          exact ⟨by rw [← h.1, h.2], by rw [← h.1, hv],
            Or.inr ⟨cfg0, rfl, Or.inl h.1.symm⟩⟩
      · cases hm : migrateOk
        · cases hb : buildOk <;> cases hr : retryBuildOk <;>
            simp [setupNode, createNode, createRepo, hb, hr, hm, hv] at h
        · cases hb : buildOk
          · cases hr : retryBuildOk <;>
              simp [setupNode, createNode, createRepo, hb, hr, hm, hv] at h
            exact ⟨by rw [← h.1, h.2], by rw [← h.1], Or.inr ⟨cfg0, rfl, Or.inr h.1.symm⟩⟩
          · simp [setupNode, createNode, createRepo, hb, hm, hv] at h
            exact ⟨by rw [← h.1, h.2], by rw [← h.1], Or.inr ⟨cfg0, rfl, Or.inr h.1.symm⟩⟩

/-- C4: a repository comes into existence only through the explicit create
step and only when none exists at the path: starting from an existing
repository every successful setup returns that same repository, at most
with its format version migrated — the identity keypair in particular is
never regenerated; an unfixable format mismatch surfaces as the migration
error instead of a silent re-creation; and from an empty path the
repository set up is exactly the freshly created one. -/
theorem setupNode_no_silent_recreate (migrateOk buildOk retryBuildOk : Bool)
    (pid pk : String) (cfg0 : Config) :
    (∀ c w, setupNode migrateOk buildOk retryBuildOk pid pk (some cfg0) = .ok (c, w) →
        w = some c
        ∧ c.peerID = cfg0.peerID ∧ c.privKey = cfg0.privKey
        ∧ (c = cfg0 ∨ c = { cfg0 with version := repoVersion }))
    ∧ (cfg0.version ≠ repoVersion → migrateOk = false →
        setupNode migrateOk buildOk retryBuildOk pid pk (some cfg0)
          = .error .migrationFailed)
    ∧ (retryBuildOk = true →
        setupNode migrateOk buildOk retryBuildOk pid pk none
          = .ok (freshConfig pid pk, some (freshConfig pid pk))) := by
  refine ⟨?_, ?_, ?_⟩
  · intro c w h
    obtain ⟨hw, -, hcases⟩ := setupNode_ok migrateOk buildOk retryBuildOk pid pk
      (some cfg0) c w h
    rcases hcases with ⟨hnone, -⟩ | ⟨cfg1, hsome, hc⟩
    · exact absurd hnone (by simp)
    · rw [Option.some.injEq] at hsome
      subst hsome
      rcases hc with rfl | rfl
      · exact ⟨hw, rfl, rfl, Or.inl rfl⟩
      · exact ⟨hw, rfl, rfl, Or.inr rfl⟩
  · intro hv hm
    cases hb : buildOk <;>
      simp [setupNode, createNode, createRepo, hb, hm, hv]
  · intro hr
    simp [setupNode, createNode, createRepo, hr, freshConfig]

/-- Witness for C4: discharged at a concrete existing repository with a
mismatched on-disk version and failing migration. -/
theorem setupNode_no_silent_recreate_witness :
    (∀ c w, setupNode false true true ("QmNew") ("newKey")
          (some { sampleCfg with version := 7 }) = .ok (c, w) →
        w = some c
        ∧ c.peerID = { sampleCfg with version := 7 }.peerID
        ∧ c.privKey = { sampleCfg with version := 7 }.privKey
        ∧ (c = { sampleCfg with version := 7 }
            ∨ c = { { sampleCfg with version := 7 } with version := repoVersion }))
    ∧ ({ sampleCfg with version := 7 }.version ≠ repoVersion → false = false →
        setupNode false true true ("QmNew") ("newKey")
            (some { sampleCfg with version := 7 })
          = .error .migrationFailed)
    ∧ (true = true →
        setupNode false true true ("QmNew") ("newKey") none
          = .ok (freshConfig ("QmNew") ("newKey"),
              some (freshConfig ("QmNew") ("newKey")))) :=
  setupNode_no_silent_recreate false true true ("QmNew") ("newKey")
    { sampleCfg with version := 7 }

/-! ### Claims C3, C5, C10 -/

theorem createNode_ok (migrateOk buildOk : Bool) :
    ∀ (world : Option Config) (c : Config) (w : Option Config),
      createNode migrateOk buildOk world = .ok (c, w) →
      w = some c ∧ c.version = repoVersion
      ∧ ∃ cfg0, world = some cfg0
          ∧ (c = cfg0 ∨ c = { cfg0 with version := repoVersion }) := by
  intro world c w h
  cases world with
  | none => simp [createNode] at h
  | some cfg0 =>
      by_cases hv : cfg0.version = repoVersion
      · cases hb : buildOk <;> simp [createNode, hb, hv] at h
        exact ⟨by rw [← h.1, h.2], by rw [← h.1, hv], cfg0, rfl, Or.inl h.1.symm⟩
      · cases hm : migrateOk <;> cases hb : buildOk <;>
          simp [createNode, hb, hm, hv] at h
        exact ⟨by rw [← h.1, h.2], by rw [← h.1], cfg0, rfl, Or.inr h.1.symm⟩

theorem config_set_version (c : Config) (h : c.version = repoVersion) :
    ({ c with version := repoVersion } : Config) = c := by
  cases c
  simp_all

theorem relayWorld_write (env : SpawnEnv) (cfgA : Config)
    (hw : env.writeRelay = true) :
    relayWorld env (some cfgA) = some (setRelayConfig true cfgA) := by
  simp [relayWorld, setRelay, hw]

theorem relayBranch_spec (env : SpawnEnv) (world : Option Config)
    (t : List Event) :
    ((relayBranch env world t).trace.countP Event.isRewriteRelay
        = t.countP Event.isRewriteRelay + 1)
    ∧ ((relayBranch env world t).peering = false →
        (relayBranch env world t).trace
          = t ++ [.cancelCtx, .rewriteRelay, .settleWait])
    ∧ ((relayBranch env world t).peering = true →
        ∃ cfgB, (relayBranch env world t).trace
            = t ++ [.cancelCtx, .rewriteRelay, .settleWait, .rebuildNode cfgB,
                    .peeringRegister, .peeringStart]
          ∧ (relayBranch env world t).nodeCfg = some cfgB
          ∧ (relayBranch env world t).world = some cfgB)
    ∧ (∀ cfgA, world = some cfgA → cfgA.version = repoVersion →
        env.writeRelay = true → (relayBranch env world t).peering = true →
        (relayBranch env world t).nodeCfg = some (setRelayConfig true cfgA)) := by
  cases hcn : createNode env.migrateOk env.rebuildOk (relayWorld env world) with
  | error e =>
      refine ⟨?_, fun _ => ?_, fun hp => ?_, fun cfgA hwa hv hw hp => ?_⟩
      · simp [relayBranch, hcn, List.countP_append, List.countP_cons,
          Event.isRewriteRelay]
      · simp [relayBranch, hcn]
      · simp [relayBranch, hcn] at hp
      · simp [relayBranch, hcn] at hp
  | ok p =>
      obtain ⟨cfgB, w2⟩ := p
      obtain ⟨hw2, hverB, cfg1, hw1, hcs⟩ :=
        createNode_ok env.migrateOk env.rebuildOk (relayWorld env world) cfgB w2 hcn
      refine ⟨?_, fun hp => ?_, fun _ => ?_, fun cfgA hwa hv hw hp => ?_⟩
      · simp [relayBranch, hcn, List.countP_append, List.countP_cons,
          Event.isRewriteRelay]
      · simp [relayBranch, hcn] at hp
      · exact ⟨cfgB, by simp [relayBranch, hcn], by simp [relayBranch, hcn],
          by simp [relayBranch, hcn, hw2]⟩
      · subst hwa
        rw [relayWorld_write env cfgA hw, Option.some.injEq] at hw1
        have hv1 : cfg1.version = repoVersion := by
          rw [← hw1]
          exact hv
        have hB : cfgB = cfg1 := by
          rcases hcs with rfl | rfl
          · rfl
          · exact config_set_version cfg1 hv1
        simp [relayBranch, hcn, hB, ← hw1]

theorem spawnAfterDirect_spec (online : Bool) (env : SpawnEnv)
    (world : Option Config) (t : List Event) :
    ((spawnAfterDirect online env world t).trace.countP Event.isRewriteRelay
        ≤ t.countP Event.isRewriteRelay + 1)
    ∧ ((spawnAfterDirect online env world t).peering = true →
        online = true ∧ env.probeOk = true ∧ checkReachability env.addrs = false
        ∧ ∃ cfgA cfgB,
            (spawnAfterDirect online env world t).trace
              = t ++ [.buildNodeA cfgA, .graceWait, .probe env.addrs, .cancelCtx,
                      .rewriteRelay, .settleWait, .rebuildNode cfgB,
                      .peeringRegister, .peeringStart]
            ∧ (spawnAfterDirect online env world t).nodeCfg = some cfgB
            ∧ (spawnAfterDirect online env world t).world = some cfgB
            ∧ (env.writeRelay = true → cfgB = setRelayConfig true cfgA)) := by
  cases hsu : setupNode env.migrateOk env.buildOk env.retryBuildOk
      env.newPeerID env.newPrivKey world with
  | error e =>
      constructor
      · simp [spawnAfterDirect, hsu]
      · intro hp
        simp [spawnAfterDirect, hsu] at hp
  | ok p =>
      obtain ⟨cfgA, w1⟩ := p
      obtain ⟨hw1, hver, -⟩ := setupNode_ok env.migrateOk env.buildOk
        env.retryBuildOk env.newPeerID env.newPrivKey world cfgA w1 hsu
      subst hw1
      cases ho : online with
      | false =>
          constructor
          · simp [spawnAfterDirect, hsu, List.countP_append, List.countP_cons,
              Event.isRewriteRelay]
          · intro hp
            simp [spawnAfterDirect, hsu] at hp
      | true =>
          cases hpk : env.probeOk with
          | false =>
              constructor
              · simp [spawnAfterDirect, hsu, hpk, List.countP_append,
                  List.countP_cons, Event.isRewriteRelay]
              · intro hp
                simp [spawnAfterDirect, hsu, hpk] at hp
          | true =>
              cases hcr : checkReachability env.addrs with
              | true =>
                  constructor
                  · simp [spawnAfterDirect, hsu, hpk, hcr, List.countP_append,
                      List.countP_cons, Event.isRewriteRelay]
                  · intro hp
                    simp [spawnAfterDirect, hsu, hpk, hcr] at hp
              | false =>
                  obtain ⟨hcount, hfalse, htrue, hrelay⟩ :=
                    relayBranch_spec env (some cfgA)
                      (t ++ [.buildNodeA cfgA, .graceWait, .probe env.addrs])
                  have hred : spawnAfterDirect true env world t
                      = relayBranch env (some cfgA)
                          (t ++ [.buildNodeA cfgA, .graceWait, .probe env.addrs]) := by
                    simp [spawnAfterDirect, hsu, hpk, hcr]
                  rw [hred]
                  constructor
                  · rw [hcount]
                    simp [List.countP_append, List.countP_cons,
                      Event.isRewriteRelay]
                  · intro hp
                    obtain ⟨cfgB, htr, hnc, hwo⟩ := htrue hp
                    refine ⟨rfl, rfl, rfl, cfgA, cfgB, ?_, hnc, hwo, ?_⟩
                    · rw [htr]
                      simp
                    · intro hw
                      have h2 := hrelay cfgA rfl hver hw hp
                      rw [hnc] at h2
                      exact Option.some_inj.mp h2

theorem spawnMain_spec (online : Bool) (env : SpawnEnv) (w : Option Config) :
    ((spawnAfterDirect online env w [.rewriteDirect]).trace.countP
        Event.isRewriteRelay ≤ 1)
    ∧ ((spawnAfterDirect online env w [.rewriteDirect]).peering = true →
        online = true ∧ env.probeOk = true ∧ checkReachability env.addrs = false)
    ∧ ((spawnAfterDirect online env w [.rewriteDirect]).peering = true →
        ∃ cfgA cfgB,
          (spawnAfterDirect online env w [.rewriteDirect]).trace
            = [.rewriteDirect, .buildNodeA cfgA, .graceWait, .probe env.addrs,
               .cancelCtx, .rewriteRelay, .settleWait, .rebuildNode cfgB,
               .peeringRegister, .peeringStart]
          ∧ (spawnAfterDirect online env w [.rewriteDirect]).nodeCfg = some cfgB)
    ∧ ((spawnAfterDirect online env w [.rewriteDirect]).peering = true →
        env.writeRelay = true →
        ∃ cfgB,
          (spawnAfterDirect online env w [.rewriteDirect]).nodeCfg = some cfgB
          ∧ cfgB.announce = [relayCircuitOf cfgB.peerID]
          ∧ (spawnAfterDirect online env w [.rewriteDirect]).world = some cfgB) := by
  obtain ⟨hcount, hmain⟩ := spawnAfterDirect_spec online env w [.rewriteDirect]
  refine ⟨?_, fun hp => ?_, fun hp => ?_, fun hp hw => ?_⟩
  · simpa [List.countP_cons, List.countP_nil, Event.isRewriteRelay] using hcount
  · obtain ⟨ho, hpk, hcr, -⟩ := hmain hp
    exact ⟨ho, hpk, hcr⟩
  · obtain ⟨-, -, -, cfgA, cfgB, htr, hnc, -, -⟩ := hmain hp
    refine ⟨cfgA, cfgB, ?_, hnc⟩
    rw [htr]
    rfl
  · obtain ⟨-, -, -, cfgA, cfgB, htr, hnc, hwo, hwrel⟩ := hmain hp
    refine ⟨cfgB, hnc, ?_, hwo⟩
    rw [hwrel hw]
    rfl

/-- C5: the NatBound reconfiguration is attempted at most once per run (the
relay rewrite appears at most once in every trace); a peering relationship
exists only after an online run whose probe succeeded and classified the
node NatBound, never in direct mode; a completed reconfiguration performed
exactly the five steps in order — cancel, relay rewrite, settle wait, node
rebuild, peering registration and start — after the initial build and probe;
and when the rewrite succeeded the rebuilt node carries exactly the one
relay circuit address embedding its own identity, persisted on disk. -/
theorem relay_transition_oneway (online : Bool) (env : SpawnEnv)
    (world0 : Option Config) :
    ((spawnNode online env world0).trace.countP Event.isRewriteRelay ≤ 1)
    ∧ ((spawnNode online env world0).peering = true →
        online = true ∧ env.probeOk = true ∧ checkReachability env.addrs = false)
    ∧ ((spawnNode online env world0).peering = true →
        ∃ cfgA cfgB,
          (spawnNode online env world0).trace
            = [.rewriteDirect, .buildNodeA cfgA, .graceWait, .probe env.addrs,
               .cancelCtx, .rewriteRelay, .settleWait, .rebuildNode cfgB,
               .peeringRegister, .peeringStart]
          ∧ (spawnNode online env world0).nodeCfg = some cfgB)
    ∧ ((spawnNode online env world0).peering = true → env.writeRelay = true →
        ∃ cfgB, (spawnNode online env world0).nodeCfg = some cfgB
          ∧ cfgB.announce = [relayCircuitOf cfgB.peerID]
          ∧ (spawnNode online env world0).world = some cfgB) := by
  cases hsr : setRelay false world0 env.writeDirect with
  | error e =>
      by_cases he : e = Err.notInitialized
      · subst he
        have hred : spawnNode online env world0
            = spawnAfterDirect online env world0 [.rewriteDirect] := by
          simp [spawnNode, hsr]
        rw [hred]
        exact spawnMain_spec online env world0
      · have hred : spawnNode online env world0
            = ({ world := world0, trace := [.rewriteDirect], nodeCfg := none,
                 peering := false, outcome := .error e } : SpawnResult) := by
          simp [spawnNode, hsr, he]
        rw [hred]
        refine ⟨?_, fun hp => by simp at hp, fun hp => by simp at hp,
          fun hp => by simp at hp⟩
        simp [List.countP_cons, List.countP_nil, Event.isRewriteRelay]
  | ok w1 =>
      have hred : spawnNode online env world0
          = spawnAfterDirect online env w1 [.rewriteDirect] := by
        simp [spawnNode, hsr]
      rw [hred]
      exact spawnMain_spec online env w1

theorem setRelay_error_none (relay : Bool) (world : Option Config)
    (writeOk : Bool)
    (h : setRelay relay world writeOk = .error .notInitialized) :
    world = none := by
  cases world with
  | none => rfl
  | some cfg => cases hw : writeOk <;> simp [setRelay, hw] at h

theorem setRelay_ok_inv (relay : Bool) (world : Option Config) (writeOk : Bool)
    (w1 : Option Config) (h : setRelay relay world writeOk = .ok w1) :
    ∃ cfg0, world = some cfg0 ∧ w1 = some (setRelayConfig relay cfg0) := by
  cases world with
  | none => simp [setRelay] at h
  | some cfg =>
      cases hw : writeOk <;> simp [setRelay, hw] at h
      exact ⟨cfg, rfl, h.symm⟩

theorem relayBranch_no_buildA (env : SpawnEnv) (world : Option Config)
    (t : List Event) (cfg : Config)
    (h : Event.buildNodeA cfg ∈ (relayBranch env world t).trace) :
    Event.buildNodeA cfg ∈ t := by
  obtain ⟨-, hfalse, htrue, -⟩ := relayBranch_spec env world t
  cases hp : (relayBranch env world t).peering with
  | false =>
      rw [hfalse hp] at h
      simpa using h
  | true =>
      obtain ⟨cfgB, htr, -, -⟩ := htrue hp
      rw [htr] at h
      simpa using h

theorem spawnAfterDirect_buildA (online : Bool) (env : SpawnEnv)
    (world : Option Config) (t : List Event) (cfg : Config)
    (h : Event.buildNodeA cfg ∈ (spawnAfterDirect online env world t).trace) :
    Event.buildNodeA cfg ∈ t
    ∨ ∃ w1, setupNode env.migrateOk env.buildOk env.retryBuildOk
        env.newPeerID env.newPrivKey world = .ok (cfg, w1) := by
  cases hsu : setupNode env.migrateOk env.buildOk env.retryBuildOk
      env.newPeerID env.newPrivKey world with
  | error e =>
      simp [spawnAfterDirect, hsu] at h
      exact Or.inl h
  | ok p =>
      obtain ⟨cfgA, w1⟩ := p
      cases ho : online with
      | false =>
          simp [spawnAfterDirect, hsu, ho] at h
          rcases h with h | he
          · exact Or.inl h
          · subst he
            exact Or.inr ⟨w1, rfl⟩
      | true =>
          cases hpk : env.probeOk with
          | false =>
              simp [spawnAfterDirect, hsu, ho, hpk] at h
              rcases h with h | he
              · exact Or.inl h
              · subst he
                exact Or.inr ⟨w1, rfl⟩
          | true =>
              cases hcr : checkReachability env.addrs with
              | true =>
                  simp [spawnAfterDirect, hsu, ho, hpk, hcr] at h
                  rcases h with h | he
                  · exact Or.inl h
                  · subst he
                    exact Or.inr ⟨w1, rfl⟩
              | false =>
                  rw [show spawnAfterDirect online env world t
                      = relayBranch env w1
                          (t ++ [.buildNodeA cfgA, .graceWait, .probe env.addrs])
                    from by simp [spawnAfterDirect, hsu, ho, hpk, hcr]] at h
                  have h2 := relayBranch_no_buildA env w1
                    (t ++ [.buildNodeA cfgA, .graceWait, .probe env.addrs]) cfg h
                  simp at h2
                  rcases h2 with h2 | he
                  · exact Or.inl h2
                  · subst he
                    exact Or.inr ⟨w1, rfl⟩

theorem spawnAfterDirect_mem_buildA (online : Bool) (env : SpawnEnv)
    (world : Option Config) (t : List Event) (cfgA : Config)
    (w1 : Option Config)
    (hsu : setupNode env.migrateOk env.buildOk env.retryBuildOk
        env.newPeerID env.newPrivKey world = .ok (cfgA, w1)) :
    Event.buildNodeA cfgA ∈ (spawnAfterDirect online env world t).trace := by
  cases ho : online with
  | false => simp [spawnAfterDirect, hsu]
  | true =>
      cases hpk : env.probeOk with
      | false => simp [spawnAfterDirect, hsu, hpk]
      | true =>
          cases hcr : checkReachability env.addrs with
          | true => simp [spawnAfterDirect, hsu, hpk, hcr]
          | false =>
              have hred : spawnAfterDirect true env world t
                  = relayBranch env w1
                      (t ++ [.buildNodeA cfgA, .graceWait, .probe env.addrs]) := by
                simp [spawnAfterDirect, hsu, hpk, hcr]
              rw [hred]
              obtain ⟨-, hfalse, htrue, -⟩ := relayBranch_spec env w1
                (t ++ [.buildNodeA cfgA, .graceWait, .probe env.addrs])
              cases hp : (relayBranch env w1
                  (t ++ [.buildNodeA cfgA, .graceWait, .probe env.addrs])).peering with
              | false =>
                  rw [hfalse hp]
                  simp
              | true =>
                  obtain ⟨cfgB, htr, -, -⟩ := htrue hp
                  rw [htr]
                  simp

/-- C10: on every startup the announce list is rewritten to empty before the
first node is built — every configuration a first node is built from has an
empty announce list, so a repository left in relay mode by a previous run
begins the next run in direct mode; the rewrite's failure is tolerated only
when no repository exists (with an existing repository a failed rewrite is
fatal and no node is built at all); and with no repository present the
tolerated failure still leads to a node built from the freshly created
configuration. -/
theorem startup_begins_direct (online : Bool) (env : SpawnEnv)
    (world0 : Option Config) :
    (∀ cfg : Config,
        Event.buildNodeA cfg ∈ (spawnNode online env world0).trace →
        cfg.announce = [])
    ∧ (∀ cfg0 : Config, world0 = some cfg0 → env.writeDirect = false →
        (spawnNode online env world0).outcome = .error .ioError
        ∧ ∀ cfg : Config,
            Event.buildNodeA cfg ∉ (spawnNode online env world0).trace)
    ∧ (world0 = none → env.retryBuildOk = true →
        Event.buildNodeA (freshConfig env.newPeerID env.newPrivKey)
          ∈ (spawnNode online env world0).trace) := by
  refine ⟨?_, ?_, ?_⟩
  · intro cfg hmem
    cases hsr : setRelay false world0 env.writeDirect with
    | error e =>
        by_cases he : e = Err.notInitialized
        · subst he
          have hw0 : world0 = none :=
            setRelay_error_none false world0 env.writeDirect hsr
          have hred : spawnNode online env world0
              = spawnAfterDirect online env world0 [.rewriteDirect] := by
            simp [spawnNode, hsr]
          rw [hred] at hmem
          rcases spawnAfterDirect_buildA online env world0 [.rewriteDirect]
              cfg hmem with hin | ⟨w1, hsu⟩
          · simp at hin
          · obtain ⟨-, -, hcases⟩ := setupNode_ok env.migrateOk env.buildOk
              env.retryBuildOk env.newPeerID env.newPrivKey world0 cfg w1 hsu
            rcases hcases with ⟨-, rfl⟩ | ⟨cfg0, hsome, -⟩
            · rfl
            · rw [hw0] at hsome
              exact absurd hsome (by simp)
        · have hred : spawnNode online env world0
              = ({ world := world0, trace := [.rewriteDirect], nodeCfg := none,
                   peering := false, outcome := .error e } : SpawnResult) := by
            simp [spawnNode, hsr, he]
          rw [hred] at hmem
          simp at hmem
    | ok w1 =>
        obtain ⟨cfg0, hw0, hw1⟩ :=
          setRelay_ok_inv false world0 env.writeDirect w1 hsr
        have hred : spawnNode online env world0
            = spawnAfterDirect online env w1 [.rewriteDirect] := by
          simp [spawnNode, hsr]
        rw [hred] at hmem
        rcases spawnAfterDirect_buildA online env w1 [.rewriteDirect]
            cfg hmem with hin | ⟨wx, hsu⟩
        · simp at hin
        · obtain ⟨-, -, hcases⟩ := setupNode_ok env.migrateOk env.buildOk
            env.retryBuildOk env.newPeerID env.newPrivKey w1 cfg wx hsu
          rcases hcases with ⟨hnone, -⟩ | ⟨cfg1, hsome, hc⟩
          · rw [hw1] at hnone
            exact absurd hnone (by simp)
          · rw [hw1, Option.some.injEq] at hsome
            rcases hc with rfl | rfl
            · rw [← hsome]
              rfl
            · rw [← hsome]
              rfl
  · intro cfg0 h0 hwd
    subst h0
    have hsr : setRelay false (some cfg0) env.writeDirect
        = .error .ioError := by
      simp [setRelay, hwd]
    have hred : spawnNode online env (some cfg0)
        = ({ world := some cfg0, trace := [.rewriteDirect], nodeCfg := none,
             peering := false, outcome := .error Err.ioError } : SpawnResult) := by
      simp [spawnNode, hsr]
    rw [hred]
    exact ⟨rfl, fun cfg => by simp⟩
  · intro h0 hr
    subst h0
    have hred : spawnNode online env none
        = spawnAfterDirect online env none [.rewriteDirect] := by
      simp [spawnNode, setRelay]
    rw [hred]
    have hsu : setupNode env.migrateOk env.buildOk env.retryBuildOk
        env.newPeerID env.newPrivKey none
        = .ok (freshConfig env.newPeerID env.newPrivKey,
            some (freshConfig env.newPeerID env.newPrivKey)) := by
      simp [setupNode, createNode, createRepo, hr, freshConfig]
    exact spawnAfterDirect_mem_buildA online env none [.rewriteDirect] _ _ hsu

/-- The run exhibiting the discarded error of ipfs.go line 95: an existing
repository, online mode, both observed local addresses private, and a relay
config rewrite that fails as an I/O error while every other step succeeds. -/
def bugEnv : SpawnEnv :=
  { writeDirect := true
    writeRelay := false
    migrateOk := true
    buildOk := true
    retryBuildOk := true
    rebuildOk := true
    probeOk := true
    addrs := ["/ip4/192.168.0.5/tcp/4001", "/ip4/127.0.0.1/tcp/4001"]
    newPeerID := "QmFreshPeer"
    newPrivKey := "fresh-key" }

/-- C3, evaluation of the code at the failing input: the step-2 announce
rewrite fails (its own result is the I/O error), yet startup still returns
success, the node is rebuilt from the unchanged direct-mode configuration
(announce list still empty, on disk and in the node handle), and the relay
peering is registered and started anyway — the flow continues past the
failed step and silently falls back to a direct-mode announce
configuration. -/
theorem relayRewriteFailure_not_fatal :
    setRelay true (some (setRelayConfig false sampleCfg)) bugEnv.writeRelay
      = .error .ioError
    ∧ (spawnNode true bugEnv (some sampleCfg)).outcome = .ok ()
    ∧ (spawnNode true bugEnv (some sampleCfg)).peering = true
    ∧ Event.rewriteRelay ∈ (spawnNode true bugEnv (some sampleCfg)).trace
    ∧ ((spawnNode true bugEnv (some sampleCfg)).nodeCfg.map Config.announce)
        = some []
    ∧ ((spawnNode true bugEnv (some sampleCfg)).world.map Config.announce)
        = some [] := by
  refine ⟨rfl, rfl, rfl, ?_, rfl, rfl⟩
  decide

end Ait
